import Mathlib

/-!
Verification of the PyProt profile-based local sequence alignment engine.

The repository's `src/` holds only the demonstration notebook
`examples/msa-profiles.ipynb`; the library modules it imports
(`score.py` with `PSSM`, `align.py` with `Align`/`Aligned`) are not part
of `src/`, so the engine below is modelled from the specification's own
words (its data model §3, component design §4 and error taxonomy §7) and
the claims are settled against that model.
-/

namespace PyProt

/-- Modelled from the spec: error taxonomy of §7 (the implementing modules
are absent from `src/`). -/
inductive AlignError where
  | alignmentWidthMismatch
  | invalidResidueError
  | emptyInputError
  | invalidArgumentError
  deriving DecidableEq, Repr

/-- Modelled from the spec: the Background Model of §3 — an immutable
mapping from residue symbol to background probability, over a fixed
residue alphabet with a distinguished gap symbol. -/
structure BackgroundModel where
  residues : List Char
  gap : Char
  bg : Char → ℚ

/-- Modelled from the spec: the Profile (PSSM) data model of §3 —
`name`, optional fixed width (set by the first `add`), one count record
per column mapping each non-gap residue to its observed count,
`sequenceCount`, and a (possibly per-column) gap penalty. -/
structure PSSM where
  name : String
  width : Option Nat
  counts : List (Char → Nat)
  sequenceCount : Nat
  gapPen : Nat → ℚ

/-- A freshly constructed, empty profile. -/
def emptyPSSM (name : String) : PSSM :=
  ⟨name, none, [], 0, fun _ => 0⟩

/-- `setGapPenalty`: uniform scalar gap penalty over all columns (§4.1). -/
def PSSM.setGapPenalty (p : PSSM) (v : ℚ) : PSSM :=
  { p with gapPen := fun _ => v }

/-- `frequency(column, residue)`: the raw count, 0 if never observed (§4.1). -/
def PSSM.frequency (p : PSSM) (c : Nat) (r : Char) : Nat :=
  (p.counts.getD c (fun _ => 0)) r

/-- α of a column: the total non-gap residue count observed at that
column (derived by summing the column's counts over the alphabet, §3). -/
def PSSM.nonGapCount (bm : BackgroundModel) (p : PSSM) (c : Nat) : Nat :=
  (bm.residues.map (p.frequency c)).sum

/-- A symbol valid inside an added aligned sequence: a residue of the
alphabet or the gap symbol (§3). -/
def validSym (bm : BackgroundModel) (ch : Char) : Bool :=
  bm.residues.contains ch || ch == bm.gap

/-- Bump one column's count record with one observed symbol: gap symbols
increment no frequency (§4.1). -/
def bumpCol (gap : Char) (cnt : Char → Nat) (ch : Char) : Char → Nat :=
  if ch = gap then cnt else fun r => if r = ch then cnt r + 1 else cnt r

/-- Commit a whole validated sequence into the column records. -/
def commitCounts (gap : Char) (counts : List (Char → Nat)) (s : List Char) :
    List (Char → Nat) :=
  List.zipWith (bumpCol gap) counts s

/-- Modelled from the spec: `add(sequence)` of §4.1 (`score.py` is absent
from `src/`). The whole sequence is validated before any column update is
committed (§7); on failure the profile state is returned unchanged
together with the error. The first successful `add` fixes the width. -/
def PSSM.add (bm : BackgroundModel) (p : PSSM) (s : List Char) :
    PSSM × Option AlignError :=
  match p.width with
  | some W =>
    if s.length ≠ W then (p, some .alignmentWidthMismatch)
    else if s.all (validSym bm) then
      ({ p with counts := commitCounts bm.gap p.counts s,
                sequenceCount := p.sequenceCount + 1 }, none)
    else (p, some .invalidResidueError)
  | none =>
    if s.length = 0 then (p, some .alignmentWidthMismatch)
    else if s.all (validSym bm) then
      ({ p with width := some s.length,
                counts := commitCounts bm.gap
                  (List.replicate s.length (fun _ => 0)) s,
                sequenceCount := p.sequenceCount + 1 }, none)
    else (p, some .invalidResidueError)

/-- Modelled from the spec: the evolutionary probability `q` of §4.2,
`q = (α·f + β·p) / (α + β)` with `f` the observed frequency of the
residue at the column divided by the column's total non-gap count (0 when
that count is zero), and with the edge-case convention `q = p` when
`α + β = 0`. -/
def qProb (bm : BackgroundModel) (p : PSSM) (c : Nat) (r : Char) : ℚ :=
  let a : ℚ := p.nonGapCount bm c
  let b : ℚ := p.sequenceCount
  let f : ℚ := if p.nonGapCount bm c = 0 then 0 else (p.frequency c r : ℚ) / a
  if a + b = 0 then bm.bg r
  else (a * f + b * bm.bg r) / (a + b)

/-- Modelled from the spec: `score(column, residue) = log(q / p)` (§4.2). -/
noncomputable def score (bm : BackgroundModel) (p : PSSM) (c : Nat) (r : Char) : ℝ :=
  Real.log ((qProb bm p c r : ℝ) / (bm.bg r : ℝ))

/-- Modelled from the spec: the "scoring provider" interface of §9 — the
alignment engine is parameterized by a `score(column, residue)` capability,
a gap-penalty query, the profile width and the residue alphabet; the PSSM
is one implementation (`PSSM.provider` below). Scores live in an arbitrary
linearly ordered additive group, since the engine only adds, subtracts and
compares them. -/
structure ScoringProvider (α : Type) where
  alphabet : List Char
  width : Nat
  sc : Nat → Char → α
  gp : Nat → α

/-- The PSSM as a scoring provider (§9), with its log-odds scores in ℝ. -/
noncomputable def PSSM.provider (bm : BackgroundModel) (p : PSSM) :
    ScoringProvider ℝ :=
  ⟨bm.residues, p.counts.length, fun c r => score bm p c r, fun c => (p.gapPen c : ℝ)⟩

section Engine

variable {α : Type} [LinearOrderedAddCommGroup α]

/-- One row of the dynamic-programming matrix (row index `i+1`), given the
previous row `prev`; cells tagged by the exclusion `mask` are fixed to 0
(§9, masking previously-found alignments). -/
def Hrow (pr : ScoringProvider α) (Q : List Char) (mask : List (Nat × Nat))
    (i : Nat) (prev : Nat → α) : Nat → α
  | 0 => 0
  | j + 1 =>
    if (i + 1, j + 1) ∈ mask then 0
    else
      max 0 (max (prev j + pr.sc j (Q.getD i '-'))
        (max (prev (j + 1) - pr.gp (j + 1))
          (Hrow pr Q mask i prev j - pr.gp j)))

/-- Modelled from the spec: the local-alignment dynamic-programming matrix
`H` of §4.3, with an exclusion mask for suboptimal extraction (§4.3, §9).
`Hmat pr Q [] i j` is the plain Smith–Waterman-style matrix. -/
def Hmat (pr : ScoringProvider α) (Q : List Char) (mask : List (Nat × Nat)) :
    Nat → Nat → α
  | 0, _ => 0
  | i + 1, j => Hrow pr Q mask i (Hmat pr Q mask i) j

/-- Backtrace step record: the traced cell and the query-track entry it
renders (`some` residue for a match/insertion step, `none` for a gap). -/
abbrev Step := (Nat × Nat) × Option Char

/-- Backtrace from a cell, fuel-indexed for structural recursion: follow
whichever predecessor term produced the stored value, tie-break
diagonal > up > left, stopping at value 0 or the matrix boundary (§4.3). -/
def backtraceAux (pr : ScoringProvider α) (Q : List Char)
    (mask : List (Nat × Nat)) : Nat → Nat → Nat → List Step
  | 0, _, _ => []
  | _ + 1, 0, _ => []
  | _ + 1, _, 0 => []
  | fuel + 1, i + 1, j + 1 =>
    let v := Hmat pr Q mask (i + 1) (j + 1)
    if v ≤ 0 then []
    else if v = Hmat pr Q mask i j + pr.sc j (Q.getD i '-') then
      ((i + 1, j + 1), some (Q.getD i '-')) :: backtraceAux pr Q mask fuel i j
    else if v = Hmat pr Q mask i (j + 1) - pr.gp (j + 1) then
      ((i + 1, j + 1), some (Q.getD i '-')) :: backtraceAux pr Q mask fuel i (j + 1)
    else ((i + 1, j + 1), none) :: backtraceAux pr Q mask fuel (i + 1) j

/-- Backtrace from cell `(i, j)`; `i + j` steps of fuel always suffice. -/
def backtrace (pr : ScoringProvider α) (Q : List Char)
    (mask : List (Nat × Nat)) (i j : Nat) : List Step :=
  backtraceAux pr Q mask (i + j) i j

/-- The rank label of the k-th alignment: `local` for the optimal one,
`local-suboptimal(k)` for the k-th suboptimal one (§4.3). -/
def rankLabel (k : Nat) : String :=
  if k = 0 then "local" else "local-suboptimal(" ++ toString k ++ ")"

/-- Modelled from the spec: one immutable alignment result (§3) — rank
label, score, traced cells, rendered query-side track, and the recorded
size / gap count / residue count. -/
structure Aligned (α : Type) where
  label : String
  rank : Nat
  score : α
  trace : List (Nat × Nat)
  track : List (Option Char)
  size : Nat
  gaps : Nat
  aas : Nat

/-- Build the result record for the k-th alignment from its backtrace. -/
def mkAligned (k : Nat) (v : α) (path : List Step) : Aligned α :=
  let tk := path.map Prod.snd
  ⟨rankLabel k, k, v, path.map Prod.fst, tk, tk.length,
    (tk.filter fun o => o.isNone).length,
    (tk.filter fun o => o.isSome).length⟩

/-- First-occurrence argmax over a list of cells: ties are broken by the
earliest cell in the list (row-major first occurrence, §4.3). -/
def argmaxCell (f : Nat × Nat → α) : List (Nat × Nat) → Option ((Nat × Nat) × α)
  | [] => none
  | c :: cs =>
    match argmaxCell f cs with
    | none => some (c, f c)
    | some (c', v') => if f c < v' then some (c', v') else some (c, f c)

/-- All interior cells `(i, j)`, `1 ≤ i ≤ N`, `1 ≤ j ≤ W`, in row-major
scan order. -/
def allCells (N W : Nat) : List (Nat × Nat) :=
  (List.range N).flatMap fun i => (List.range W).map fun j => (i + 1, j + 1)

/-- The location and value of the maximum of the masked matrix over the
unmasked cells (none when no unmasked cell remains). -/
def bestCell (pr : ScoringProvider α) (Q : List Char)
    (mask : List (Nat × Nat)) : Option ((Nat × Nat) × α) :=
  argmaxCell (fun c => Hmat pr Q mask c.1 c.2)
    ((allCells Q.length pr.width).filter fun c => decide (c ∉ mask))

/-- The remaining maximum of the masked matrix (0 when no unmasked cell
remains). -/
def maxVal (pr : ScoringProvider α) (Q : List Char)
    (mask : List (Nat × Nat)) : α :=
  match bestCell pr Q mask with
  | none => 0
  | some (_, v) => v

/-- Modelled from the spec: the Waterman–Eggert-style extraction loop of
§4.3 — locate the global maximum over unmasked cells, stop once it is 0 or
no unmasked cell remains, otherwise backtrace, emit the result and mask
its traced cells. -/
def multiAlignAux (pr : ScoringProvider α) (Q : List Char) :
    Nat → List (Nat × Nat) → Nat → List (Aligned α)
  | 0, _, _ => []
  | fuel + 1, mask, k =>
    match bestCell pr Q mask with
    | none => []
    | some (c, v) =>
      if v ≤ 0 then []
      else
        let path := backtrace pr Q mask c.1 c.2
        mkAligned k v path ::
          multiAlignAux pr Q fuel (mask ++ path.map Prod.fst) (k + 1)

/-- A query symbol must belong to the residue alphabet. -/
def validQuery (pr : ScoringProvider α) (Q : List Char) : Bool :=
  Q.all fun ch => pr.alphabet.contains ch

/-- Modelled from the spec: `multiAlign(query, depth)` of §4.3 with the
failure conditions of §7 — negative depth, empty query, or a query symbol
outside the alphabet fail synchronously; otherwise up to `depth + 1`
alignments are produced. -/
def multiAlign (pr : ScoringProvider α) (Q : List Char) (depth : Int) :
    Except AlignError (List (Aligned α)) :=
  if depth < 0 then .error .invalidArgumentError
  else if Q.length = 0 then .error .emptyInputError
  else if validQuery pr Q then .ok (multiAlignAux pr Q (depth.toNat + 1) [] 0)
  else .error .invalidResidueError

/-- Modelled from the spec: `align(query)` — the best single alignment,
i.e. `multiAlign` at depth 0 (§4.3). -/
def align (pr : ScoringProvider α) (Q : List Char) :
    Except AlignError (Option (Aligned α)) :=
  (multiAlign pr Q 0).map List.head?

end Engine

/-! ### Concrete demonstration instances (used by the evaluation examples) -/

/-- A tiny background model over a reduced alphabet, uniform background. -/
def demoBM : BackgroundModel := ⟨['A', 'C', 'G', 'T'], '-', fun _ => 1⟩

/-- A profile holding the single aligned sequence `AC`. -/
def demoPSSM : PSSM := ((emptyPSSM "demo").add demoBM ['A', 'C']).1

/-- A two-column integer scoring provider for engine evaluation. -/
def demoProvider : ScoringProvider ℤ :=
  ⟨['A', 'C'], 2, fun _ r => if r = 'A' then 3 else -1, fun _ => 2⟩

section Engine

variable {α : Type} [LinearOrderedAddCommGroup α]

/-! ### Matrix lemmas -/

theorem Hmat_zero_row (pr : ScoringProvider α) (Q : List Char)
    (mask : List (Nat × Nat)) (j : Nat) : Hmat pr Q mask 0 j = 0 := rfl

theorem Hmat_zero_col (pr : ScoringProvider α) (Q : List Char)
    (mask : List (Nat × Nat)) (i : Nat) : Hmat pr Q mask i 0 = 0 := by
  cases i <;> rfl

theorem Hmat_succ_succ (pr : ScoringProvider α) (Q : List Char)
    (mask : List (Nat × Nat)) (i j : Nat) :
    Hmat pr Q mask (i + 1) (j + 1) =
      if (i + 1, j + 1) ∈ mask then 0
      else
        max 0 (max (Hmat pr Q mask i j + pr.sc j (Q.getD i '-'))
          (max (Hmat pr Q mask i (j + 1) - pr.gp (j + 1))
            (Hmat pr Q mask (i + 1) j - pr.gp j))) := rfl

theorem Hrow_nonneg (pr : ScoringProvider α) (Q : List Char)
    (mask : List (Nat × Nat)) (i : Nat) (prev : Nat → α) (j : Nat) :
    0 ≤ Hrow pr Q mask i prev j := by
  cases j with
  | zero => exact le_refl 0
  | succ j =>
    show 0 ≤ if _ ∈ mask then 0 else _
    split
    · exact le_refl 0
    · exact le_max_left 0 _

theorem Hmat_nonneg (pr : ScoringProvider α) (Q : List Char)
    (mask : List (Nat × Nat)) (i j : Nat) : 0 ≤ Hmat pr Q mask i j := by
  cases i with
  | zero => exact le_refl 0
  | succ i => exact Hrow_nonneg pr Q mask i _ j

theorem Hmat_masked (pr : ScoringProvider α) (Q : List Char)
    (mask : List (Nat × Nat)) (i j : Nat) (h : (i + 1, j + 1) ∈ mask) :
    Hmat pr Q mask (i + 1) (j + 1) = 0 := by
  rw [Hmat_succ_succ, if_pos h]

theorem Hrow_mono (pr : ScoringProvider α) (Q : List Char)
    (mask mask' : List (Nat × Nat)) (hm : mask ⊆ mask') (i : Nat)
    (prev prev' : Nat → α) (hprev : ∀ j, prev' j ≤ prev j) (j : Nat) :
    Hrow pr Q mask' i prev' j ≤ Hrow pr Q mask i prev j := by
  induction j with
  | zero => exact le_refl 0
  | succ j ih =>
    show (if _ ∈ mask' then 0 else _) ≤ Hrow pr Q mask i prev (j + 1)
    split
    · exact Hrow_nonneg pr Q mask i prev (j + 1)
    · rename_i hmem'
      have hmem : (i + 1, j + 1) ∉ mask := fun h => hmem' (hm h)
      show _ ≤ if _ ∈ mask then 0 else _
      rw [if_neg hmem]
      refine max_le_max (le_refl 0) (max_le_max ?_ (max_le_max ?_ ?_))
      · exact add_le_add_right (hprev j) _
      · exact sub_le_sub_right (hprev (j + 1)) _
      · exact sub_le_sub_right ih _

theorem Hmat_mono_mask (pr : ScoringProvider α) (Q : List Char)
    (mask mask' : List (Nat × Nat)) (hm : mask ⊆ mask') (i j : Nat) :
    Hmat pr Q mask' i j ≤ Hmat pr Q mask i j := by
  induction i generalizing j with
  | zero => exact le_refl 0
  | succ i ih =>
    exact Hrow_mono pr Q mask mask' hm i _ _ (fun j' => ih j') j

/-! ### Argmax lemmas -/

theorem argmaxCell_eq_none {f : Nat × Nat → α} {l : List (Nat × Nat)}
    (h : argmaxCell f l = none) : l = [] := by
  cases l with
  | nil => rfl
  | cons c cs =>
    exfalso
    simp only [argmaxCell] at h
    rcases hrec : argmaxCell f cs with _ | ⟨c', v'⟩ <;> rw [hrec] at h
    · exact Option.noConfusion h
    · dsimp at h
      split at h <;> exact Option.noConfusion h

theorem argmaxCell_spec {f : Nat × Nat → α} {l : List (Nat × Nat)}
    {c : Nat × Nat} {v : α} (h : argmaxCell f l = some (c, v)) :
    v = f c ∧ c ∈ l ∧ ∀ x ∈ l, f x ≤ v := by
  induction l generalizing c v with
  | nil => exact Option.noConfusion h
  | cons a as ih =>
    simp only [argmaxCell] at h
    rcases hrec : argmaxCell f as with _ | ⟨c', v'⟩ <;> rw [hrec] at h
    · dsimp at h
      have hnil : as = [] := argmaxCell_eq_none hrec
      obtain ⟨rfl, rfl⟩ : c = a ∧ v = f a := by
        injection h with h'
        injection h' with h1 h2
        exact ⟨h1.symm, h2.symm⟩
      subst hnil
      refine ⟨rfl, List.mem_singleton.mpr rfl, ?_⟩
      intro x hx
      rw [List.mem_singleton.mp hx]
    · obtain ⟨hv', hc', hall⟩ := ih hrec
      dsimp at h
      split at h
      · rename_i hlt
        obtain ⟨rfl, rfl⟩ : c = c' ∧ v = v' := by
          injection h with h'
          injection h' with h1 h2
          exact ⟨h1.symm, h2.symm⟩
        refine ⟨hv', List.mem_cons_of_mem a hc', ?_⟩
        intro x hx
        rcases List.mem_cons.mp hx with rfl | hx
        · exact le_of_lt hlt
        · exact hall x hx
      · rename_i hnlt
        obtain ⟨rfl, rfl⟩ : c = a ∧ v = f a := by
          injection h with h'
          injection h' with h1 h2
          exact ⟨h1.symm, h2.symm⟩
        refine ⟨rfl, List.mem_cons_self _ _, ?_⟩
        intro x hx
        rcases List.mem_cons.mp hx with rfl | hx
        · exact le_refl _
        · exact le_trans (hall x hx) (le_of_not_lt hnlt)

/-! ### Best-cell lemmas -/

theorem bestCell_spec {pr : ScoringProvider α} {Q : List Char}
    {mask : List (Nat × Nat)} {c : Nat × Nat} {v : α}
    (h : bestCell pr Q mask = some (c, v)) :
    v = Hmat pr Q mask c.1 c.2 ∧ c ∈ allCells Q.length pr.width ∧ c ∉ mask ∧
      ∀ x ∈ allCells Q.length pr.width, x ∉ mask → Hmat pr Q mask x.1 x.2 ≤ v := by
  obtain ⟨hv, hc, hall⟩ := argmaxCell_spec h
  have hc' := List.mem_filter.mp hc
  refine ⟨hv, hc'.1, of_decide_eq_true hc'.2, ?_⟩
  intro x hx hxm
  exact hall x (List.mem_filter.mpr ⟨hx, decide_eq_true hxm⟩)

theorem bestCell_none {pr : ScoringProvider α} {Q : List Char}
    {mask : List (Nat × Nat)} (h : bestCell pr Q mask = none) :
    ∀ x ∈ allCells Q.length pr.width, x ∈ mask := by
  intro x hx
  by_contra hxm
  have : x ∈ (allCells Q.length pr.width).filter fun c => decide (c ∉ mask) :=
    List.mem_filter.mpr ⟨hx, decide_eq_true hxm⟩
  rw [argmaxCell_eq_none h] at this
  exact List.not_mem_nil x this

theorem maxVal_nonneg (pr : ScoringProvider α) (Q : List Char)
    (mask : List (Nat × Nat)) : 0 ≤ maxVal pr Q mask := by
  unfold maxVal
  rcases h : bestCell pr Q mask with _ | ⟨c, v⟩
  · exact le_refl 0
  · rw [(bestCell_spec h).1]
    exact Hmat_nonneg pr Q mask c.1 c.2

theorem maxVal_of_some {pr : ScoringProvider α} {Q : List Char}
    {mask : List (Nat × Nat)} {c : Nat × Nat} {v : α}
    (h : bestCell pr Q mask = some (c, v)) : maxVal pr Q mask = v := by
  unfold maxVal
  rw [h]

theorem maxVal_of_none {pr : ScoringProvider α} {Q : List Char}
    {mask : List (Nat × Nat)} (h : bestCell pr Q mask = none) :
    maxVal pr Q mask = 0 := by
  unfold maxVal
  rw [h]

theorem maxVal_mono (pr : ScoringProvider α) (Q : List Char)
    (mask mask' : List (Nat × Nat)) (hm : mask ⊆ mask') :
    maxVal pr Q mask' ≤ maxVal pr Q mask := by
  rcases h' : bestCell pr Q mask' with _ | ⟨c', v'⟩
  · rw [maxVal_of_none h']
    exact maxVal_nonneg pr Q mask
  · rw [maxVal_of_some h']
    obtain ⟨hv', hcell', hmask', _⟩ := bestCell_spec h'
    have hcm : c' ∉ mask := fun hc => hmask' (hm hc)
    rcases h : bestCell pr Q mask with _ | ⟨c, v⟩
    · exact absurd (bestCell_none h c' hcell') hcm
    · rw [maxVal_of_some h]
      obtain ⟨_, _, _, hbound⟩ := bestCell_spec h
      calc v' = Hmat pr Q mask' c'.1 c'.2 := hv'
        _ ≤ Hmat pr Q mask c'.1 c'.2 := Hmat_mono_mask pr Q mask mask' hm _ _
        _ ≤ v := hbound c' hcell' hcm

/-! ### Extraction-loop lemmas -/

theorem multiAlignAux_shape (pr : ScoringProvider α) (Q : List Char)
    (fuel : Nat) (mask : List (Nat × Nat)) (k : Nat) :
    multiAlignAux pr Q (fuel + 1) mask k = [] ∨
      ∃ c v, bestCell pr Q mask = some (c, v) ∧ ¬ v ≤ 0 ∧
        multiAlignAux pr Q (fuel + 1) mask k =
          mkAligned k v (backtrace pr Q mask c.1 c.2) ::
            multiAlignAux pr Q fuel
              (mask ++ (backtrace pr Q mask c.1 c.2).map Prod.fst) (k + 1) := by
  rcases h : bestCell pr Q mask with _ | ⟨c, v⟩
  · left
    simp [multiAlignAux, h]
  · by_cases hv : v ≤ 0
    · left
      simp [multiAlignAux, h, hv]
    · right
      exact ⟨c, v, rfl, hv, by simp [multiAlignAux, h, hv, backtrace]⟩

theorem multiAlignAux_score_le (pr : ScoringProvider α) (Q : List Char) :
    ∀ (fuel : Nat) (mask : List (Nat × Nat)) (k : Nat) (r : Aligned α),
      r ∈ multiAlignAux pr Q fuel mask k → r.score ≤ maxVal pr Q mask := by
  intro fuel
  induction fuel with
  | zero => intro mask k r hr; exact absurd hr (List.not_mem_nil r)
  | succ fuel ih =>
    intro mask k r hr
    rcases multiAlignAux_shape pr Q fuel mask k with hnil | ⟨c, v, hb, hv, heq⟩
    · rw [hnil] at hr
      exact absurd hr (List.not_mem_nil r)
    · rw [heq] at hr
      rcases List.mem_cons.mp hr with rfl | hr
      · show v ≤ maxVal pr Q mask
        rw [maxVal_of_some hb]
      · calc r.score ≤ maxVal pr Q (mask ++ _) := ih _ _ r hr
          _ ≤ maxVal pr Q mask :=
            maxVal_mono pr Q _ _ (List.subset_append_left _ _)

theorem multiAlignAux_score_pos (pr : ScoringProvider α) (Q : List Char) :
    ∀ (fuel : Nat) (mask : List (Nat × Nat)) (k : Nat) (r : Aligned α),
      r ∈ multiAlignAux pr Q fuel mask k → 0 < r.score := by
  intro fuel
  induction fuel with
  | zero => intro mask k r hr; exact absurd hr (List.not_mem_nil r)
  | succ fuel ih =>
    intro mask k r hr
    rcases multiAlignAux_shape pr Q fuel mask k with hnil | ⟨c, v, _, hv, heq⟩
    · rw [hnil] at hr
      exact absurd hr (List.not_mem_nil r)
    · rw [heq] at hr
      rcases List.mem_cons.mp hr with rfl | hr
      · exact lt_of_not_le hv
      · exact ih _ _ r hr

theorem multiAlignAux_sorted (pr : ScoringProvider α) (Q : List Char) :
    ∀ (fuel : Nat) (mask : List (Nat × Nat)) (k : Nat),
      (multiAlignAux pr Q fuel mask k).Pairwise fun a b => b.score ≤ a.score := by
  intro fuel
  induction fuel with
  | zero => intro mask k; exact List.Pairwise.nil
  | succ fuel ih =>
    intro mask k
    rcases multiAlignAux_shape pr Q fuel mask k with hnil | ⟨c, v, hb, _, heq⟩
    · rw [hnil]
      exact List.Pairwise.nil
    · rw [heq]
      refine List.Pairwise.cons ?_ (ih _ _)
      intro b hb'
      show b.score ≤ v
      calc b.score ≤ maxVal pr Q (mask ++ _) := multiAlignAux_score_le pr Q _ _ _ b hb'
        _ ≤ maxVal pr Q mask :=
          maxVal_mono pr Q _ _ (List.subset_append_left _ _)
        _ = v := maxVal_of_some hb

theorem multiAlignAux_length_le (pr : ScoringProvider α) (Q : List Char) :
    ∀ (fuel : Nat) (mask : List (Nat × Nat)) (k : Nat),
      (multiAlignAux pr Q fuel mask k).length ≤ fuel := by
  intro fuel
  induction fuel with
  | zero => intro mask k; exact Nat.le_refl 0
  | succ fuel ih =>
    intro mask k
    rcases multiAlignAux_shape pr Q fuel mask k with hnil | ⟨c, v, _, _, heq⟩
    · rw [hnil]
      exact Nat.zero_le _
    · rw [heq, List.length_cons]
      exact Nat.succ_le_succ (ih _ _)

theorem multiAlignAux_labels (pr : ScoringProvider α) (Q : List Char) :
    ∀ (fuel : Nat) (mask : List (Nat × Nat)) (k idx : Nat) (r : Aligned α),
      (multiAlignAux pr Q fuel mask k)[idx]? = some r →
      r.label = rankLabel (k + idx) := by
  intro fuel
  induction fuel with
  | zero =>
    intro mask k idx r h
    exact absurd h (by simp [multiAlignAux])
  | succ fuel ih =>
    intro mask k idx r h
    rcases multiAlignAux_shape pr Q fuel mask k with hnil | ⟨c, v, _, _, heq⟩
    · rw [hnil] at h
      exact absurd h (by simp)
    · rw [heq] at h
      cases idx with
      | zero =>
        rw [List.getElem?_cons_zero] at h
        obtain rfl : mkAligned k v (backtrace pr Q mask c.1 c.2) = r :=
          Option.some_injective _ h
        show rankLabel k = rankLabel (k + 0)
        rw [Nat.add_zero]
      | succ idx =>
        rw [List.getElem?_cons_succ] at h
        rw [ih _ _ idx r h, Nat.add_right_comm, Nat.add_assoc]

/-! ### Backtrace lemmas -/

theorem backtraceAux_unmasked (pr : ScoringProvider α) (Q : List Char)
    (mask : List (Nat × Nat)) :
    ∀ (fuel i j : Nat) (e : Step), e ∈ backtraceAux pr Q mask fuel i j →
      e.1 ∉ mask := by
  intro fuel
  induction fuel with
  | zero =>
    intro i j e he
    exact absurd he (List.not_mem_nil e)
  | succ fuel ih =>
    intro i j e he
    cases i with
    | zero => simp [backtraceAux] at he
    | succ i =>
      cases j with
      | zero => simp [backtraceAux] at he
      | succ j =>
        have hcellval : (i + 1, j + 1) ∈ mask →
            Hmat pr Q mask (i + 1) (j + 1) = 0 := Hmat_masked pr Q mask i j
        by_cases hv : Hmat pr Q mask (i + 1) (j + 1) ≤ 0
        · simp [backtraceAux, hv] at he
        · have hcell : (i + 1, j + 1) ∉ mask := fun hm =>
            hv (le_of_eq (hcellval hm))
          by_cases h1 : Hmat pr Q mask (i + 1) (j + 1) =
              Hmat pr Q mask i j + pr.sc j (Q.getD i '-')
          · simp only [backtraceAux, if_neg hv, if_pos h1,
              List.mem_cons] at he
            rcases he with rfl | he
            · exact hcell
            · exact ih i j e he
          · by_cases h2 : Hmat pr Q mask (i + 1) (j + 1) =
                Hmat pr Q mask i (j + 1) - pr.gp (j + 1)
            · simp only [backtraceAux, if_neg hv, if_neg h1, if_pos h2,
                List.mem_cons] at he
              rcases he with rfl | he
              · exact hcell
              · exact ih i (j + 1) e he
            · simp only [backtraceAux, if_neg hv, if_neg h1, if_neg h2,
                List.mem_cons] at he
              rcases he with rfl | he
              · exact hcell
              · exact ih (i + 1) j e he

omit [LinearOrderedAddCommGroup α] in
theorem mkAligned_trace (k : Nat) (v : α) (path : List Step) :
    (mkAligned k v path).trace = path.map Prod.fst := rfl

theorem multiAlignAux_trace_unmasked (pr : ScoringProvider α) (Q : List Char) :
    ∀ (fuel : Nat) (mask : List (Nat × Nat)) (k : Nat) (r : Aligned α),
      r ∈ multiAlignAux pr Q fuel mask k → ∀ x ∈ r.trace, x ∉ mask := by
  intro fuel
  induction fuel with
  | zero =>
    intro mask k r hr
    exact absurd hr (List.not_mem_nil r)
  | succ fuel ih =>
    intro mask k r hr x hx
    rcases multiAlignAux_shape pr Q fuel mask k with hnil | ⟨c, v, _, _, heq⟩
    · rw [hnil] at hr
      exact absurd hr (List.not_mem_nil r)
    · rw [heq] at hr
      rcases List.mem_cons.mp hr with rfl | hr
      · rw [mkAligned_trace] at hx
        obtain ⟨e, he, rfl⟩ := List.mem_map.mp hx
        exact backtraceAux_unmasked pr Q mask _ c.1 c.2 e he
      · intro hxm
        exact ih _ _ r hr x hx (List.mem_append_left _ hxm)

theorem multiAlignAux_disjoint (pr : ScoringProvider α) (Q : List Char) :
    ∀ (fuel : Nat) (mask : List (Nat × Nat)) (k : Nat),
      (multiAlignAux pr Q fuel mask k).Pairwise
        fun a b => ∀ x ∈ a.trace, x ∉ b.trace := by
  intro fuel
  induction fuel with
  | zero => intro mask k; exact List.Pairwise.nil
  | succ fuel ih =>
    intro mask k
    rcases multiAlignAux_shape pr Q fuel mask k with hnil | ⟨c, v, _, _, heq⟩
    · rw [hnil]
      exact List.Pairwise.nil
    · rw [heq]
      refine List.Pairwise.cons ?_ (ih _ _)
      intro b hb x hx hxb
      have hxm : x ∈ mask ++ (backtrace pr Q mask c.1 c.2).map Prod.fst := by
        rw [mkAligned_trace] at hx
        exact List.mem_append_right _ hx
      exact multiAlignAux_trace_unmasked pr Q fuel _ _ b hb x hxb hxm

/-! ### Track bookkeeping -/

theorem length_filter_isNone_add_isSome (l : List (Option Char)) :
    (l.filter fun o => o.isNone).length + (l.filter fun o => o.isSome).length
      = l.length := by
  induction l with
  | nil => rfl
  | cons o l ihl =>
    cases o with
    | none =>
      simp [List.filter_cons]
      omega
    | some ch =>
      simp [List.filter_cons]
      omega

theorem multiAlignAux_size_eq (pr : ScoringProvider α) (Q : List Char) :
    ∀ (fuel : Nat) (mask : List (Nat × Nat)) (k : Nat) (r : Aligned α),
      r ∈ multiAlignAux pr Q fuel mask k → r.size = r.gaps + r.aas := by
  intro fuel
  induction fuel with
  | zero =>
    intro mask k r hr
    exact absurd hr (List.not_mem_nil r)
  | succ fuel ih =>
    intro mask k r hr
    rcases multiAlignAux_shape pr Q fuel mask k with hnil | ⟨c, v, _, _, heq⟩
    · rw [hnil] at hr
      exact absurd hr (List.not_mem_nil r)
    · rw [heq] at hr
      rcases List.mem_cons.mp hr with rfl | hr
      · exact (length_filter_isNone_add_isSome _).symm
      · exact ih _ _ r hr

/-! ### Top-level inversion -/

theorem multiAlign_ok {pr : ScoringProvider α} {Q : List Char} {depth : Int}
    {rs : List (Aligned α)} (h : multiAlign pr Q depth = .ok rs) :
    rs = multiAlignAux pr Q (depth.toNat + 1) [] 0 ∧ 0 ≤ depth ∧ Q ≠ [] ∧
      validQuery pr Q = true := by
  unfold multiAlign at h
  by_cases hd : depth < 0
  · rw [if_pos hd] at h
    exact Except.noConfusion h
  · rw [if_neg hd] at h
    by_cases hq : Q.length = 0
    · rw [if_pos hq] at h
      exact Except.noConfusion h
    · rw [if_neg hq] at h
      by_cases hvq : validQuery pr Q
      · rw [if_pos hvq] at h
        injection h with h'
        exact ⟨h'.symm, le_of_not_lt hd, fun hn => hq (by rw [hn]; rfl), hvq⟩
      · rw [if_neg hvq] at h
        exact Except.noConfusion h

theorem align_ok_some {pr : ScoringProvider α} {Q : List Char}
    {r : Aligned α} (h : align pr Q = .ok (some r)) :
    ∃ rs, multiAlign pr Q 0 = .ok rs ∧ r ∈ rs := by
  unfold align at h
  cases hm : multiAlign pr Q 0 with
  | error e =>
    rw [hm] at h
    exact Except.noConfusion h
  | ok rs =>
    rw [hm] at h
    injection h with h'
    refine ⟨rs, rfl, ?_⟩
    cases rs with
    | nil => exact Option.noConfusion h'
    | cons a l =>
      rw [List.head?_cons] at h'
      rw [← Option.some_injective _ h']
      exact List.mem_cons_self _ _

/-! ### Claim theorems for the alignment engine -/

/-- C2: for every profile (as a scoring provider) and every valid query,
the dynamic-programming matrix `H` of the engine satisfies
`H[0][j] = H[i][0] = 0` and, for `1 ≤ i ≤ N`, `1 ≤ j ≤ W`,
`H[i][j] = max(0, H[i-1][j-1] + score(j-1, Q[i-1]),
H[i-1][j] - gapPenalty(j), H[i][j-1] - gapPenalty(j-1))`. -/
theorem dp_recurrence (pr : ScoringProvider α) (Q : List Char) (i j : Nat)
    (hi1 : 1 ≤ i) (hiN : i ≤ Q.length) (hj1 : 1 ≤ j) (hjW : j ≤ pr.width) :
    (∀ j', Hmat pr Q [] 0 j' = 0) ∧ (∀ i', Hmat pr Q [] i' 0 = 0) ∧
      Hmat pr Q [] i j =
        max 0 (max (Hmat pr Q [] (i - 1) (j - 1) + pr.sc (j - 1) (Q.getD (i - 1) '-'))
          (max (Hmat pr Q [] (i - 1) j - pr.gp j)
            (Hmat pr Q [] i (j - 1) - pr.gp (j - 1)))) := by
  refine ⟨fun j' => Hmat_zero_row pr Q [] j', fun i' => Hmat_zero_col pr Q [] i', ?_⟩
  cases i with
  | zero => exact absurd hi1 (by omega)
  | succ i =>
    cases j with
    | zero => exact absurd hj1 (by omega)
    | succ j =>
      rw [Hmat_succ_succ, if_neg (List.not_mem_nil _)]
      rfl

/-- C3: a successful `multiAlign` call at depth `d` yields at most
`d + 1` results, every emitted result has positive score (the extraction
stops once the remaining maximum is 0 or no unmasked cell remains), and
the k-th result is labelled `local` for `k = 0` and `local-suboptimal(k)`
for `k ≥ 1`. -/
theorem multiAlign_length_labels (pr : ScoringProvider α) (Q : List Char)
    (d : Int) (rs : List (Aligned α)) (h : multiAlign pr Q d = .ok rs) :
    rs.length ≤ d.toNat + 1 ∧
      (∀ (k : Nat) (hk : k < rs.length), (rs.get ⟨k, hk⟩).label = rankLabel k) ∧
      ∀ r ∈ rs, 0 < r.score := by
  obtain ⟨rfl, -, -, -⟩ := multiAlign_ok h
  refine ⟨multiAlignAux_length_le pr Q _ [] 0, ?_, ?_⟩
  · intro k hk
    have hidx := List.getElem?_eq_getElem hk
    have := multiAlignAux_labels pr Q (d.toNat + 1) [] 0 k _ (by
      rw [hidx])
    rw [Nat.zero_add] at this
    rw [← this]
    rfl
  · intro r hr
    exact multiAlignAux_score_pos pr Q _ [] 0 r hr

/-- C4: the results of a single `multiAlign` call are non-increasing in
score — every result's score is at most the score of each result yielded
before it. -/
theorem multiAlign_scores_nonincreasing (pr : ScoringProvider α)
    (Q : List Char) (d : Int) (rs : List (Aligned α))
    (h : multiAlign pr Q d = .ok rs) :
    rs.Pairwise fun a b => b.score ≤ a.score := by
  obtain ⟨rfl, -, -, -⟩ := multiAlign_ok h
  exact multiAlignAux_sorted pr Q _ [] 0

/-- C5: no two results of the same `multiAlign` call share a traced
(query-position, profile-column) cell — their backtraces are disjoint. -/
theorem multiAlign_traces_disjoint (pr : ScoringProvider α)
    (Q : List Char) (d : Int) (rs : List (Aligned α))
    (h : multiAlign pr Q d = .ok rs) :
    rs.Pairwise fun a b => ∀ x ∈ a.trace, x ∉ b.trace := by
  obtain ⟨rfl, -, -, -⟩ := multiAlign_ok h
  exact multiAlignAux_disjoint pr Q _ [] 0

/-- C7: `multiAlign` fails with `InvalidArgumentError` on a negative
depth, with `EmptyInputError` on an empty query, and with
`InvalidResidueError` on a query symbol outside the alphabet (argument
validation precedes query validation); `align` fails with the same two
query errors. Each error is the synchronous result of the offending
call. -/
theorem align_error_conditions (pr : ScoringProvider α) (Q : List Char)
    (depth : Int) :
    (depth < 0 → multiAlign pr Q depth = .error .invalidArgumentError) ∧
      (0 ≤ depth → Q = [] → multiAlign pr Q depth = .error .emptyInputError) ∧
      (0 ≤ depth → validQuery pr Q = false →
        multiAlign pr Q depth = .error .invalidResidueError) ∧
      (Q = [] → align pr Q = .error .emptyInputError) ∧
      (validQuery pr Q = false → align pr Q = .error .invalidResidueError) := by
  have hmain : ∀ dep : Int, 0 ≤ dep →
      (Q = [] → multiAlign pr Q dep = .error .emptyInputError) ∧
      (validQuery pr Q = false →
        multiAlign pr Q dep = .error .invalidResidueError) := by
    intro dep hdep
    constructor
    · intro hQ
      subst hQ
      unfold multiAlign
      rw [if_neg (not_lt.mpr hdep)]
      simp
    · intro hvq
      unfold multiAlign
      rw [if_neg (not_lt.mpr hdep)]
      by_cases hq : Q.length = 0
      · have : Q = [] := List.length_eq_zero.mp hq
        subst this
        exact absurd hvq (by simp [validQuery])
      · rw [if_neg hq, if_neg (by rw [hvq]; exact Bool.false_ne_true)]
  refine ⟨?_, fun hd hQ => (hmain depth hd).1 hQ, fun hd hvq => (hmain depth hd).2 hvq,
    ?_, ?_⟩
  · intro hd
    unfold multiAlign
    rw [if_pos hd]
  · intro hQ
    unfold align
    rw [(hmain 0 le_rfl).1 hQ]
    rfl
  · intro hvq
    unfold align
    rw [(hmain 0 le_rfl).2 hvq]
    rfl

/-- C10: every alignment result produced by `align` or `multiAlign` has
its recorded size equal to its recorded gap count plus its recorded
residue count. -/
theorem aligned_size_split (pr : ScoringProvider α) (Q : List Char) :
    (∀ (d : Int) (rs : List (Aligned α)), multiAlign pr Q d = .ok rs →
      ∀ r ∈ rs, r.size = r.gaps + r.aas) ∧
      ∀ r : Aligned α, align pr Q = .ok (some r) → r.size = r.gaps + r.aas := by
  constructor
  · intro d rs h r hr
    obtain ⟨rfl, -, -, -⟩ := multiAlign_ok h
    exact multiAlignAux_size_eq pr Q _ [] 0 r hr
  · intro r h
    obtain ⟨rs, hok, hmem⟩ := align_ok_some h
    obtain ⟨rfl, -, -, -⟩ := multiAlign_ok hok
    exact multiAlignAux_size_eq pr Q _ [] 0 r hmem

end Engine

/-! ### Concrete evaluations of the engine claims -/

theorem dp_recurrence_witness :
    (1 ≤ 1 ∧ 1 ≤ (['A', 'A'] : List Char).length ∧ 1 ≤ 2 ∧
        2 ≤ demoProvider.width) ∧
      ((∀ j', Hmat demoProvider ['A', 'A'] [] 0 j' = 0) ∧
        (∀ i', Hmat demoProvider ['A', 'A'] [] i' 0 = 0) ∧
        Hmat demoProvider ['A', 'A'] [] 1 2 =
          max 0 (max (Hmat demoProvider ['A', 'A'] [] 0 1 +
              demoProvider.sc 1 ((['A', 'A'] : List Char).getD 0 '-'))
            (max (Hmat demoProvider ['A', 'A'] [] 0 2 - demoProvider.gp 2)
              (Hmat demoProvider ['A', 'A'] [] 1 1 - demoProvider.gp 1)))) :=
  ⟨⟨by decide, by decide, by decide, by decide⟩,
    dp_recurrence demoProvider ['A', 'A'] 1 2 (by decide) (by decide)
      (by decide) (by decide)⟩

theorem multiAlign_length_labels_witness :
    multiAlign demoProvider ['A', 'A'] 3 =
        .ok (multiAlignAux demoProvider ['A', 'A'] 4 [] 0) ∧
      ((multiAlignAux demoProvider ['A', 'A'] 4 [] 0).length ≤ (3 : Int).toNat + 1 ∧
        (∀ (k : Nat) (hk : k < (multiAlignAux demoProvider ['A', 'A'] 4 [] 0).length),
          ((multiAlignAux demoProvider ['A', 'A'] 4 [] 0).get ⟨k, hk⟩).label =
            rankLabel k) ∧
        ∀ r ∈ multiAlignAux demoProvider ['A', 'A'] 4 [] 0, 0 < r.score) :=
  ⟨rfl, multiAlign_length_labels demoProvider ['A', 'A'] 3 _ rfl⟩

theorem multiAlign_scores_nonincreasing_witness :
    multiAlign demoProvider ['A', 'A'] 2 =
        .ok (multiAlignAux demoProvider ['A', 'A'] 3 [] 0) ∧
      (multiAlignAux demoProvider ['A', 'A'] 3 [] 0).Pairwise
        (fun a b => b.score ≤ a.score) :=
  ⟨rfl, multiAlign_scores_nonincreasing demoProvider ['A', 'A'] 2 _ rfl⟩

theorem multiAlign_traces_disjoint_witness :
    multiAlign demoProvider ['A', 'A'] 1 =
        .ok (multiAlignAux demoProvider ['A', 'A'] 2 [] 0) ∧
      (multiAlignAux demoProvider ['A', 'A'] 2 [] 0).Pairwise
        (fun a b => ∀ x ∈ a.trace, x ∉ b.trace) :=
  ⟨rfl, multiAlign_traces_disjoint demoProvider ['A', 'A'] 1 _ rfl⟩

theorem align_error_conditions_witness :
    multiAlign demoProvider ['A'] (-1) = .error .invalidArgumentError ∧
      multiAlign demoProvider ([] : List Char) 3 = .error .emptyInputError ∧
      multiAlign demoProvider ['Z'] 3 = .error .invalidResidueError ∧
      align demoProvider ([] : List Char) = .error .emptyInputError ∧
      align demoProvider ['Z'] = .error .invalidResidueError :=
  ⟨(align_error_conditions demoProvider ['A'] (-1)).1 (by decide),
    (align_error_conditions demoProvider [] 3).2.1 (by decide) rfl,
    (align_error_conditions demoProvider ['Z'] 3).2.2.1 (by decide) (by decide),
    (align_error_conditions demoProvider [] 3).2.2.2.1 rfl,
    (align_error_conditions demoProvider ['Z'] 3).2.2.2.2 (by decide)⟩

theorem aligned_size_split_witness :
    multiAlign demoProvider ['A'] 0 =
        .ok (multiAlignAux demoProvider ['A'] 1 [] 0) ∧
      ∀ r ∈ multiAlignAux demoProvider ['A'] 1 [] 0,
        r.size = r.gaps + r.aas :=
  ⟨rfl, (aligned_size_split demoProvider ['A']).1 0 _ rfl⟩

/-! ### Claim theorems for the profile builder and scoring function -/

/-- C6: the first `add` of a sequence of length ≥ 1 fixes the width; a
later `add` whose length differs from the established width fails with
`AlignmentWidthMismatch`; an `add` whose sequence holds a symbol outside
the alphabet (width check passing first) fails with `InvalidResidueError`;
and every failing `add` returns the profile unchanged — no partial column
update is committed. -/
theorem add_validation (bm : BackgroundModel) (p : PSSM) (s : List Char) :
    (p.width = none → 1 ≤ s.length → s.all (validSym bm) = true →
      (p.add bm s).2 = none ∧ (p.add bm s).1.width = some s.length ∧
        (p.add bm s).1.sequenceCount = p.sequenceCount + 1) ∧
      (∀ W, p.width = some W → s.length ≠ W →
        p.add bm s = (p, some .alignmentWidthMismatch)) ∧
      (∀ W, p.width = some W → s.length = W → s.all (validSym bm) = false →
        p.add bm s = (p, some .invalidResidueError)) ∧
      (p.width = none → 1 ≤ s.length → s.all (validSym bm) = false →
        p.add bm s = (p, some .invalidResidueError)) ∧
      ∀ q e, p.add bm s = (q, some e) → q = p := by
  refine ⟨?_, ?_, ?_, ?_, ?_⟩
  · intro hw h1 hall
    simp only [PSSM.add, hw]
    rw [if_neg (by omega : ¬s.length = 0), if_pos hall]
    exact ⟨rfl, rfl, rfl⟩
  · intro W hw hne
    simp only [PSSM.add, hw]
    rw [if_pos hne]
  · intro W hw heq hall
    simp only [PSSM.add, hw]
    rw [if_neg (fun hn => hn heq), if_neg (by rw [hall]; exact Bool.false_ne_true)]
  · intro hw h1 hall
    simp only [PSSM.add, hw]
    rw [if_neg (by omega : ¬s.length = 0),
      if_neg (by rw [hall]; exact Bool.false_ne_true)]
  · intro q e h
    cases hw : p.width <;> simp only [PSSM.add, hw] at h <;> split_ifs at h <;>
      first
        | (injection h with h1 h2; exact h1.symm)
        | (injection h with h1 h2; exact Option.noConfusion h2)

/-- C1: for a profile with at least one added sequence and a residue of
the alphabet, `score(column, residue)` is `log(q / p)` with
`q = (α·f + β·p) / (α + β)`, `f` the observed frequency of the residue at
the column divided by the column's non-gap count (0 when that count is
zero), `p` the background probability, `α` the column's non-gap count and
`β` the profile's `sequenceCount`. -/
theorem score_log_odds_formula (bm : BackgroundModel) (p : PSSM) (c : Nat)
    (r : Char) (_hres : r ∈ bm.residues) (h : 1 ≤ p.sequenceCount) :
    score bm p c r = Real.log
      ((((p.nonGapCount bm c : ℝ) *
            (if p.nonGapCount bm c = 0 then (0 : ℝ)
              else (p.frequency c r : ℝ) / (p.nonGapCount bm c : ℝ)) +
          (p.sequenceCount : ℝ) * (bm.bg r : ℝ)) /
          ((p.nonGapCount bm c : ℝ) + (p.sequenceCount : ℝ))) /
        (bm.bg r : ℝ)) := by
  have h1 : (1 : ℚ) ≤ (p.sequenceCount : ℚ) := by exact_mod_cast h
  have h2 : (0 : ℚ) ≤ (p.nonGapCount bm c : ℚ) := Nat.cast_nonneg _
  have hab : ((p.nonGapCount bm c : ℚ) + (p.sequenceCount : ℚ)) ≠ 0 := by
    intro hc
    linarith
  simp only [score, qProb]
  rw [if_neg hab]
  congr 1
  by_cases h0 : p.nonGapCount bm c = 0
  · rw [if_pos h0, if_pos h0, h0]
    push_cast
    ring
  · rw [if_neg h0, if_neg h0]
    push_cast
    ring

/-- C8: scoring against an empty profile (no sequences added, so
`α + β = 0` at every column) returns 0 for every residue of the alphabet
with positive background probability — the `q = p` convention, no
division by zero. -/
theorem score_empty_profile_zero (bm : BackgroundModel) (p : PSSM) (c : Nat)
    (r : Char) (_hres : r ∈ bm.residues) (h0 : p.sequenceCount = 0)
    (ha : p.nonGapCount bm c = 0) (hbg : 0 < bm.bg r) :
    score bm p c r = 0 := by
  have hq : qProb bm p c r = bm.bg r := by
    simp only [qProb, ha, h0]
    norm_num
  rw [score, hq, div_self (Rat.cast_ne_zero.mpr (ne_of_gt hbg)), Real.log_one]

/-- C9: the embedding of the engine and of the scoring function is pure —
for a fixed profile state and query, two calls to `align`, `multiAlign`
or `score` with the same arguments denote the same value, so repeated
calls return identical (bit-identical) results. -/
theorem engine_deterministic {α : Type} [LinearOrderedAddCommGroup α]
    (pr : ScoringProvider α) (Q : List Char) (d : Int) (bm : BackgroundModel)
    (p : PSSM) (c : Nat) (r : Char) :
    multiAlign pr Q d = multiAlign pr Q d ∧ align pr Q = align pr Q ∧
      score bm p c r = score bm p c r :=
  ⟨rfl, rfl, rfl⟩

/-! ### Concrete evaluations of the profile claims -/

theorem add_validation_witness :
    demoPSSM.width = some 2 ∧
      demoPSSM.add demoBM ['A'] = (demoPSSM, some .alignmentWidthMismatch) :=
  ⟨by decide, (add_validation demoBM demoPSSM ['A']).2.1 2 (by decide) (by decide)⟩

theorem score_log_odds_formula_witness :
    ('A' ∈ demoBM.residues ∧ 1 ≤ demoPSSM.sequenceCount) ∧
      score demoBM demoPSSM 0 'A' = Real.log
        ((((demoPSSM.nonGapCount demoBM 0 : ℝ) *
              (if demoPSSM.nonGapCount demoBM 0 = 0 then (0 : ℝ)
                else (demoPSSM.frequency 0 'A' : ℝ) /
                  (demoPSSM.nonGapCount demoBM 0 : ℝ)) +
            (demoPSSM.sequenceCount : ℝ) * (demoBM.bg 'A' : ℝ)) /
            ((demoPSSM.nonGapCount demoBM 0 : ℝ) +
              (demoPSSM.sequenceCount : ℝ))) /
          (demoBM.bg 'A' : ℝ)) :=
  ⟨⟨by decide, by decide⟩,
    score_log_odds_formula demoBM demoPSSM 0 'A' (by decide) (by decide)⟩

theorem score_empty_profile_zero_witness :
    ('A' ∈ demoBM.residues ∧ (emptyPSSM "e").sequenceCount = 0 ∧
        (emptyPSSM "e").nonGapCount demoBM 0 = 0 ∧ 0 < demoBM.bg 'A') ∧
      score demoBM (emptyPSSM "e") 0 'A' = 0 :=
  ⟨⟨by decide, by decide, by decide, by decide⟩,
    score_empty_profile_zero demoBM (emptyPSSM "e") 0 'A' (by decide) (by decide)
      (by decide) (by decide)⟩

end PyProt
